import Mathlib

/-!
Verification of the antigravity-claude-proxy request-dispatch subsystem.

The development shallowly embeds the JavaScript sources:
  * `src/utils/signature-cache.js` (TTL signature caches),
  * `src/utils/mappers.js` (argument remapping),
  * `src/auth/database.js` (credential-store reader),
and, where the dispatch / account-pool sources are available only through
their tests and the specification, models those parts from the spec
(each such definition is marked `Modelled from the spec:`).

JavaScript `Map`s are embedded as association lists with `Map.set`
semantics (update in place, insert at the end), `Date.now()` timestamps
as explicit `Nat` parameters, and configured constants
(`GEMINI_SIGNATURE_CACHE_TTL_MS`, `MIN_SIGNATURE_LENGTH`) as parameters.
-/

set_option maxRecDepth 8192

namespace Proxy

/-! ## Association-list model of a JavaScript `Map` -/

/-- `Map.prototype.get`: value of the first (unique) matching key. -/
def mapGet {α : Type} : List (String × α) → String → Option α
  | [], _ => none
  | (k', v') :: rest, k => if k' = k then some v' else mapGet rest k

/-- `Map.prototype.set`: replace the value at an existing key in place,
otherwise append the new binding at the end. -/
def mapSet {α : Type} : List (String × α) → String → α → List (String × α)
  | [], k, v => [(k, v)]
  | (k', v') :: rest, k, v =>
      if k' = k then (k, v) :: rest else (k', v') :: mapSet rest k v

/-- `Map.prototype.delete`: remove the binding for the key. -/
def mapDelete {α : Type} (m : List (String × α)) (k : String) : List (String × α) :=
  m.filter (fun p => p.1 ≠ k)

theorem mapGet_mapSet_self {α : Type} (m : List (String × α)) (k : String) (v : α) :
    mapGet (mapSet m k v) k = some v := by
  induction m with
  | nil => simp [mapSet, mapGet]
  | cons p rest ih =>
      obtain ⟨k', v'⟩ := p
      by_cases h : k' = k <;> simp [mapSet, mapGet, h, ih]

theorem mapGet_mapSet_ne {α : Type} (m : List (String × α)) (k k' : String) (v : α)
    (h : k ≠ k') : mapGet (mapSet m k v) k' = mapGet m k' := by
  induction m with
  | nil => simp [mapSet, mapGet, h]
  | cons p rest ih =>
      obtain ⟨k0, v0⟩ := p
      by_cases hk : k0 = k
      · subst hk
        simp [mapSet, mapGet, h]
      · by_cases hk' : k0 = k' <;> simp [mapSet, mapGet, hk, hk', ih, Ne.symm h]

theorem mapGet_eq_some_mem {α : Type} {m : List (String × α)} {k : String} {v : α}
    (h : mapGet m k = some v) : (k, v) ∈ m := by
  induction m with
  | nil => simp [mapGet] at h
  | cons p rest ih =>
      obtain ⟨k', v'⟩ := p
      by_cases hk : k' = k
      · subst hk
        simp [mapGet] at h
        simp [h]
      · simp [mapGet, hk] at h
        exact List.mem_cons_of_mem _ (ih h)

theorem mapGet_eq_none_of_not_mem {α : Type} {m : List (String × α)} {k : String}
    (h : ∀ v : α, (k, v) ∉ m) : mapGet m k = none := by
  cases hg : mapGet m k with
  | none => rfl
  | some v => exact absurd (mapGet_eq_some_mem hg) (h v)

/-! ## SignatureCache (`src/utils/signature-cache.js`)

Both caches carry `{payload, timestamp}` entries.  The TTL
`GEMINI_SIGNATURE_CACHE_TTL_MS` and the length floor
`MIN_SIGNATURE_LENGTH` come from `constants.js` and are passed as
parameters `ttl` and `minLen`; `Date.now()` is the parameter `now`. -/

/-- One entry of the tool-call signature cache: `{signature, timestamp}`. -/
structure SigEntry where
  signature : String
  timestamp : Nat
deriving DecidableEq, Repr

/-- One entry of the thinking-signature cache: `{modelFamily, timestamp}`. -/
structure ThinkEntry where
  modelFamily : String
  timestamp : Nat
deriving DecidableEq, Repr

abbrev SigMap := List (String × SigEntry)
abbrev ThinkMap := List (String × ThinkEntry)

/-- `cacheSignature(toolUseId, signature)`: no-op when either string is
empty (falsy), otherwise `signatureCache.set(toolUseId, {signature,
timestamp: Date.now()})`. -/
def cacheSignature (m : SigMap) (toolUseId signature : String) (now : Nat) : SigMap :=
  if toolUseId = "" ∨ signature = "" then m
  else mapSet m toolUseId ⟨signature, now⟩

/-- `getCachedSignature(toolUseId)`: `null` for an empty id or a missing
entry; an entry older than the TTL is deleted and `null` returned;
otherwise the stored signature.  Returns the updated map together with
the result. -/
def getCachedSignature (m : SigMap) (toolUseId : String) (now ttl : Nat) :
    SigMap × Option String :=
  if toolUseId = "" then (m, none)
  else
    match mapGet m toolUseId with
    | none => (m, none)
    | some entry =>
        if now - entry.timestamp > ttl then (mapDelete m toolUseId, none)
        else (m, some entry.signature)

/-- `cacheThinkingSignature(signature, modelFamily)`: no-op when the
signature is empty (falsy) or shorter than `MIN_SIGNATURE_LENGTH`,
otherwise `thinkingSignatureCache.set(signature, {modelFamily,
timestamp: Date.now()})`. -/
def cacheThinkingSignature (m : ThinkMap) (signature modelFamily : String)
    (now minLen : Nat) : ThinkMap :=
  if signature = "" ∨ signature.length < minLen then m
  else mapSet m signature ⟨modelFamily, now⟩

/-- `getCachedSignatureFamily(signature)`: mirrors `getCachedSignature`
on the thinking-signature map. -/
def getCachedSignatureFamily (m : ThinkMap) (signature : String) (now ttl : Nat) :
    ThinkMap × Option String :=
  if signature = "" then (m, none)
  else
    match mapGet m signature with
    | none => (m, none)
    | some entry =>
        if now - entry.timestamp > ttl then (mapDelete m signature, none)
        else (m, some entry.modelFamily)

/-- The module-level cache state: the two maps of `signature-cache.js`. -/
structure CacheState where
  signatureCache : SigMap
  thinkingSignatureCache : ThinkMap
deriving DecidableEq, Repr

/-- `cleanupExpiredEntries()`: delete from both maps every entry with
`now - entry.timestamp > GEMINI_SIGNATURE_CACHE_TTL_MS`. -/
def cleanupExpiredEntries (s : CacheState) (now ttl : Nat) : CacheState :=
  { signatureCache :=
      s.signatureCache.filter (fun p => ¬ now - p.2.timestamp > ttl),
    thinkingSignatureCache :=
      s.thinkingSignatureCache.filter (fun p => ¬ now - p.2.timestamp > ttl) }

/-- `cleanupCache()`: the manual trigger simply calls
`cleanupExpiredEntries()`. -/
def cleanupCache (s : CacheState) (now ttl : Nat) : CacheState :=
  cleanupExpiredEntries s now ttl

/-- A JavaScript `Map` never holds two bindings for the same key. -/
def keysNodup {α : Type} (m : List (String × α)) : Prop :=
  (m.map Prod.fst).Nodup

instance {α : Type} (m : List (String × α)) : Decidable (keysNodup m) := by
  unfold keysNodup; infer_instance

theorem mapGet_eq_none_of_not_mem_keys {α : Type} {m : List (String × α)} {k : String}
    (h : k ∉ m.map Prod.fst) : mapGet m k = none := by
  refine mapGet_eq_none_of_not_mem fun v hv => h ?_
  exact List.mem_map_of_mem Prod.fst hv

theorem mapGet_filter {α : Type} (p : String × α → Bool) (m : List (String × α))
    (hnd : keysNodup m) (k : String) (v : α) :
    mapGet (m.filter p) k = some v ↔ (mapGet m k = some v ∧ p (k, v) = true) := by
  induction m with
  | nil => simp [mapGet]
  | cons q rest ih =>
      obtain ⟨k', v'⟩ := q
      have hnd' : keysNodup rest := (List.nodup_cons.mp hnd).2
      have hk'rest : k' ∉ rest.map Prod.fst := (List.nodup_cons.mp hnd).1
      by_cases hk : k' = k
      · subst hk
        by_cases hp : p (k', v') = true
        · simp only [List.filter_cons, hp, if_pos]
          simp [mapGet]
          intro h; subst h; exact hp
        · simp only [List.filter_cons, hp]
          simp only [Bool.false_eq_true, if_neg, not_false_eq_true]
          have : mapGet (rest.filter p) k' = none := by
            refine mapGet_eq_none_of_not_mem fun w hw => ?_
            exact hk'rest (List.mem_map_of_mem Prod.fst (List.mem_of_mem_filter hw))
          rw [this]
          simp [mapGet]
          intro h; subst h; exact Bool.eq_false_iff.mpr hp
      · simp only [List.filter_cons]
        by_cases hp : p (k', v') = true
        · simp only [hp, if_pos]
          simp [mapGet, hk, ih hnd']
        · simp only [hp, Bool.false_eq_true, if_neg, not_false_eq_true]
          simp [mapGet, hk, ih hnd']

/-- C4: storing a non-empty signature under a non-empty tool-use id and
reading it back before the TTL has elapsed yields exactly the stored
signature; reading strictly after the TTL has elapsed yields `none`. -/
theorem cacheSignature_getCachedSignature_roundtrip
    (m : SigMap) (toolUseId signature : String) (t0 t1 ttl : Nat)
    (hid : toolUseId ≠ "") (hsig : signature ≠ "") (hle : t0 ≤ t1) :
    (t1 - t0 < ttl →
      (getCachedSignature (cacheSignature m toolUseId signature t0) toolUseId t1 ttl).2 =
        some signature) ∧
    (t1 - t0 > ttl →
      (getCachedSignature (cacheSignature m toolUseId signature t0) toolUseId t1 ttl).2 =
        none) := by
  have hcache : cacheSignature m toolUseId signature t0 =
      mapSet m toolUseId ⟨signature, t0⟩ := by
    simp [cacheSignature, hid, hsig]
  have hget : mapGet (mapSet m toolUseId ⟨signature, t0⟩) toolUseId =
      some ⟨signature, t0⟩ := mapGet_mapSet_self m toolUseId _
  constructor
  · intro hfresh
    have hnot : ¬ t1 - t0 > ttl := by omega
    simp [getCachedSignature, hcache, hget, hid, hnot]
  · intro hstale
    simp [getCachedSignature, hcache, hget, hid, hstale]

/-- C4 witness at a concrete id, signature and clock. -/
theorem cacheSignature_getCachedSignature_roundtrip_witness :
    (getCachedSignature (cacheSignature [] "toolu_1" "sig_val" 100) "toolu_1" 105 10).2 =
      some "sig_val" ∧
    (getCachedSignature (cacheSignature [] "toolu_1" "sig_val" 100) "toolu_1" 120 10).2 =
      none := by
  constructor
  · exact (cacheSignature_getCachedSignature_roundtrip [] "toolu_1" "sig_val" 100 105 10
      (by decide) (by decide) (by decide)).1 (by decide)
  · exact (cacheSignature_getCachedSignature_roundtrip [] "toolu_1" "sig_val" 100 120 10
      (by decide) (by decide) (by decide)).2 (by decide)

/-- C5: one cleanup sweep leaves, in each of the two maps, exactly the
entries whose age at sweep time does not exceed the TTL, with their
values unchanged; every older entry is removed. -/
theorem cleanupExpiredEntries_removes_exactly_expired
    (s : CacheState) (now ttl : Nat)
    (h1 : keysNodup s.signatureCache) (h2 : keysNodup s.thinkingSignatureCache) :
    (∀ k e, mapGet (cleanupExpiredEntries s now ttl).signatureCache k = some e ↔
      (mapGet s.signatureCache k = some e ∧ now - e.timestamp ≤ ttl)) ∧
    (∀ k e, mapGet (cleanupExpiredEntries s now ttl).thinkingSignatureCache k = some e ↔
      (mapGet s.thinkingSignatureCache k = some e ∧ now - e.timestamp ≤ ttl)) := by
  constructor
  · intro k e
    rw [show (cleanupExpiredEntries s now ttl).signatureCache =
        s.signatureCache.filter (fun p => ¬ now - p.2.timestamp > ttl) from rfl]
    rw [mapGet_filter _ _ h1]
    simp [Nat.not_lt]
  · intro k e
    rw [show (cleanupExpiredEntries s now ttl).thinkingSignatureCache =
        s.thinkingSignatureCache.filter (fun p => ¬ now - p.2.timestamp > ttl) from rfl]
    rw [mapGet_filter _ _ h2]
    simp [Nat.not_lt]

/-- C5 witness: a sweep at time 100 with TTL 10 keeps the fresh entries
and drops the stale ones in both maps. -/
theorem cleanupExpiredEntries_removes_exactly_expired_witness :
    (mapGet (cleanupExpiredEntries
        ⟨[("a", ⟨"s", 0⟩), ("b", ⟨"t", 95⟩)],
         [("sigX", ⟨"gemini", 50⟩), ("sigY", ⟨"claude", 99⟩)]⟩ 100 10).signatureCache
      "b" = some ⟨"t", 95⟩) ∧
    (mapGet (cleanupExpiredEntries
        ⟨[("a", ⟨"s", 0⟩), ("b", ⟨"t", 95⟩)],
         [("sigX", ⟨"gemini", 50⟩), ("sigY", ⟨"claude", 99⟩)]⟩ 100 10).thinkingSignatureCache
      "sigY" = some ⟨"claude", 99⟩) := by
  have h := cleanupExpiredEntries_removes_exactly_expired
    ⟨[("a", ⟨"s", 0⟩), ("b", ⟨"t", 95⟩)],
     [("sigX", ⟨"gemini", 50⟩), ("sigY", ⟨"claude", 99⟩)]⟩ 100 10
    (by decide) (by decide)
  exact ⟨(h.1 "b" ⟨"t", 95⟩).mpr ⟨by decide, by decide⟩,
    (h.2 "sigY" ⟨"claude", 99⟩).mpr ⟨by decide, by decide⟩⟩

/-! ### Reachable thinking-signature maps

The only operations of `signature-cache.js` that touch
`thinkingSignatureCache` are `cacheThinkingSignature` (the sole writer),
the read-time eviction of `getCachedSignatureFamily`, the cleanup sweep,
and `clearThinkingSignatureCache`. -/

/-- One mutation of the thinking-signature map. -/
inductive ThinkOp where
  | cache (signature modelFamily : String) (now : Nat)
  | read (signature : String) (now ttl : Nat)
  | sweep (now ttl : Nat)
  | clear
deriving Repr

/-- Apply one operation of `signature-cache.js` to the thinking map. -/
def applyThinkOp (minLen : Nat) (m : ThinkMap) : ThinkOp → ThinkMap
  | .cache sig fam now => cacheThinkingSignature m sig fam now minLen
  | .read sig now ttl => (getCachedSignatureFamily m sig now ttl).1
  | .sweep now ttl => m.filter (fun p => ¬ now - p.2.timestamp > ttl)
  | .clear => []

/-- The thinking map produced by a history of operations, starting from
the empty map the module starts with. -/
def runThinkOps (minLen : Nat) (ops : List ThinkOp) : ThinkMap :=
  ops.foldl (applyThinkOp minLen) []

theorem mem_mapSet {α : Type} {m : List (String × α)} {k' : String} {v : α}
    {p : String × α} (h : p ∈ mapSet m k' v) : p ∈ m ∨ p = (k', v) := by
  induction m with
  | nil => simp [mapSet] at h; simp [h]
  | cons q rest ih =>
      obtain ⟨k0, v0⟩ := q
      by_cases hk : k0 = k'
      · simp [mapSet, hk] at h
        rcases h with h | h
        · right; simp [h]
        · left; simp [h]
      · simp [mapSet, hk] at h
        rcases h with h | h
        · left; simp [h]
        · rcases ih h with h' | h'
          · left; exact List.mem_cons_of_mem _ h'
          · right; exact h'

theorem mem_applyThinkOp {minLen : Nat} {m : ThinkMap} {op : ThinkOp}
    {p : String × ThinkEntry} (h : p ∈ applyThinkOp minLen m op) :
    p ∈ m ∨ (∃ sig fam now, op = .cache sig fam now ∧ p = (sig, ⟨fam, now⟩) ∧
      sig ≠ "" ∧ minLen ≤ sig.length) := by
  cases op with
  | cache sig fam now =>
      by_cases hshort : sig = "" ∨ sig.length < minLen
      · left
        simpa [applyThinkOp, cacheThinkingSignature, hshort] using h
      · push_neg at hshort
        rw [show applyThinkOp minLen m (.cache sig fam now) =
            mapSet m sig ⟨fam, now⟩ by
          simp [applyThinkOp, cacheThinkingSignature, hshort.1, Nat.not_lt.mpr hshort.2]] at h
        rcases mem_mapSet h with h' | h'
        · left; exact h'
        · right; exact ⟨sig, fam, now, rfl, h', hshort.1, hshort.2⟩
  | read sig now ttl =>
      left
      simp only [applyThinkOp, getCachedSignatureFamily] at h
      by_cases hsig : sig = ""
      · simpa [hsig] using h
      · simp only [hsig, if_neg, ite_false] at h
        cases hget : mapGet m sig with
        | none => rw [hget] at h; exact h
        | some e =>
            rw [hget] at h
            by_cases hexp : now - e.timestamp > ttl
            · simp only [hexp, if_pos, ite_true] at h
              exact List.mem_of_mem_filter h
            · simpa [hexp] using h
  | sweep now ttl =>
      left; exact List.mem_of_mem_filter h
  | clear => simp [applyThinkOp] at h

theorem runThinkOps_key_long (minLen : Nat) (ops : List ThinkOp) :
    ∀ p ∈ runThinkOps minLen ops, p.1 ≠ "" ∧ minLen ≤ p.1.length := by
  suffices h : ∀ (m : ThinkMap), (∀ p ∈ m, p.1 ≠ "" ∧ minLen ≤ p.1.length) →
      ∀ p ∈ ops.foldl (applyThinkOp minLen) m, p.1 ≠ "" ∧ minLen ≤ p.1.length by
    exact h [] (by simp)
  induction ops with
  | nil => intro m hm; simpa using hm
  | cons op rest ih =>
      intro m hm p hp
      refine ih (applyThinkOp minLen m op) ?_ p hp
      intro q hq
      rcases mem_applyThinkOp hq with h' | ⟨sig, fam, now, _, hq', hne, hlen⟩
      · exact hm q h'
      · subst hq'; exact ⟨hne, hlen⟩

/-- C7: caching a thinking signature that is empty or shorter than the
configured minimum length leaves the thinking-signature map unchanged
(for any map), and on any reachable cache state a subsequent
`getCachedSignatureFamily` lookup of that signature returns `none`. -/
theorem cacheThinkingSignature_short_noop
    (minLen : Nat) (ops : List ThinkOp) (sig fam : String) (now now2 ttl : Nat)
    (hshort : sig = "" ∨ sig.length < minLen) :
    (∀ m : ThinkMap, cacheThinkingSignature m sig fam now minLen = m) ∧
    (getCachedSignatureFamily (runThinkOps minLen ops) sig now2 ttl).2 = none := by
  constructor
  · intro m
    simp [cacheThinkingSignature, hshort]
  · by_cases hsig : sig = ""
    · simp [getCachedSignatureFamily, hsig]
    · have hget : mapGet (runThinkOps minLen ops) sig = none := by
        refine mapGet_eq_none_of_not_mem fun e he => ?_
        have := runThinkOps_key_long minLen ops (sig, e) he
        rcases hshort with h | h
        · exact hsig h
        · exact absurd this.2 (by simpa using Nat.not_le.mpr h)
      simp [getCachedSignatureFamily, hsig, hget]

/-- C7 witness: with minimum length 10, the one-character signature "x"
is not cached and is not found afterwards. -/
theorem cacheThinkingSignature_short_noop_witness :
    (∀ m : ThinkMap, cacheThinkingSignature m "x" "claude" 5 10 = m) ∧
    (getCachedSignatureFamily
      (runThinkOps 10 [ThinkOp.cache "0123456789ab" "gemini" 1]) "x" 7 1000).2 = none :=
  cacheThinkingSignature_short_noop 10 [ThinkOp.cache "0123456789ab" "gemini" 1]
    "x" "claude" 5 7 1000 (by decide)

/-! ## Argument remapping (`src/utils/mappers.js`)

JavaScript values appearing in tool-call argument objects.  Numbers are
embedded as integers: the only numeric observation the source makes is
`value !== 0`. -/

inductive JSVal where
  | str (s : String)
  | bool (b : Bool)
  | num (n : Int)
  | arr (elems : List JSVal)
  | null
  | obj

/-- A tool-call arguments object (string keys, in-place mutation). -/
abbrev Args := List (String × JSVal)

/-- `coerceToBool(value)`: booleans pass through; strings are
lower-cased and matched against the accepted spellings; numbers map to
`value !== 0`; everything else fails (`null`). -/
def coerceToBool (value : JSVal) : Option Bool :=
  match value with
  | .bool b => some b
  | .str s =>
      let lower := s.toLower
      if lower = "true" ∨ lower = "yes" ∨ lower = "1" ∨ lower = "-n" then some true
      else if lower = "false" ∨ lower = "no" ∨ lower = "0" then some false
      else none
  | .num n => some (decide (n ≠ 0))
  | _ => none

/-- The repeated block `if (args[src] !== undefined) { const v =
args[src]; delete args[src]; if (args[dst] === undefined) args[dst] = v; }`
used for `description → pattern`, `query → pattern` and
`ignore_case → ignoreCase`. -/
def remapKeyStep (src dst : String) (args : Args) : Args :=
  match mapGet args src with
  | none => args
  | some v =>
      let args' := mapDelete args src
      match mapGet args' dst with
      | none => mapSet args' dst v
      | some _ => args'

/-- The Grep `includes → include` block: delete `includes`, and when
`include` is still undefined join the string elements with commas and
store the result if it is non-empty. -/
def grepIncludesStep (args : Args) : Args :=
  match mapGet args "includes" with
  | none => args
  | some inc =>
      let args' := mapDelete args "includes"
      match mapGet args' "include" with
      | some _ => args'
      | none =>
          let includeStr :=
            match inc with
            | .arr elems =>
                String.intercalate ","
                  (elems.filterMap fun v =>
                    match v with
                    | .str s => some s
                    | _ => none)
            | .str s => s
            | _ => ""
          if includeStr = "" then args' else mapSet args' "include" (.str includeStr)

/-- The Grep `-n` block: delete `-n`, coerce its value, and when the
coercion succeeds and `lineNumbers` is undefined store the boolean. -/
def grepDashNStep (args : Args) : Args :=
  match mapGet args "-n" with
  | none => args
  | some nVal =>
      let args' := mapDelete args "-n"
      match coerceToBool nVal with
      | none => args'
      | some b =>
          match mapGet args' "lineNumbers" with
          | none => mapSet args' "lineNumbers" (.bool b)
          | some _ => args'

/-- The known boolean parameters of Grep. -/
def boolParams : List String := ["ignoreCase", "lineNumbers", "caseSensitive", "regex", "wholeWord"]

/-- One iteration of the boolean-coercion loop: when the parameter holds
a string that coerces, replace it by the boolean; otherwise leave the
object untouched. -/
def coerceBoolParam (args : Args) (param : String) : Args :=
  match mapGet args param with
  | some (.str s) =>
      match coerceToBool (.str s) with
      | some b => mapSet args param (.bool b)
      | none => args
  | _ => args

/-- The `for (const param of boolParams)` loop of the Grep branch. -/
def grepBoolCoerceStep (args : Args) : Args :=
  boolParams.foldl coerceBoolParam args

/-- The whole Grep branch of `remapFunctionCallArgs`, in source order. -/
def remapGrep (args : Args) : Args :=
  grepBoolCoerceStep
    (grepDashNStep
      (remapKeyStep "ignore_case" "ignoreCase"
        (grepIncludesStep
          (remapKeyStep "query" "pattern"
            (remapKeyStep "description" "pattern" args)))))

/-- The Glob branch of `remapFunctionCallArgs`, in source order. -/
def remapGlob (args : Args) : Args :=
  remapKeyStep "query" "pattern" (remapKeyStep "description" "pattern" args)

/-- `toolName.toLowerCase()`: lower-case every character. -/
def jsToLower (s : String) : String := ⟨s.data.map Char.toLower⟩

/-- `remapFunctionCallArgs(toolName, args)` on an arguments object
(the early return for non-object `args` is outside this embedding). -/
def remapFunctionCallArgs (toolName : String) (args : Args) : Args :=
  let lowerToolName := jsToLower toolName
  if lowerToolName = "grep" then remapGrep args
  else if lowerToolName = "glob" then remapGlob args
  else args

theorem mapGet_mapDelete_self {α : Type} (m : List (String × α)) (k : String) :
    mapGet (mapDelete m k) k = none := by
  induction m with
  | nil => rfl
  | cons p rest ih =>
      obtain ⟨k', v'⟩ := p
      by_cases h : k' = k
      · simpa [mapDelete, h] using ih
      · simpa [mapDelete, mapGet, h] using ih

theorem mapGet_mapDelete_ne {α : Type} (m : List (String × α)) (k k' : String)
    (h : k ≠ k') : mapGet (mapDelete m k) k' = mapGet m k' := by
  induction m with
  | nil => rfl
  | cons p rest ih =>
      obtain ⟨k0, v0⟩ := p
      by_cases hk : k0 = k
      · subst hk
        simpa [mapDelete, mapGet, h] using ih
      · by_cases hk' : k0 = k'
        · subst hk'
          simp [mapDelete, mapGet, hk]
        · have hcons : mapDelete ((k0, v0) :: rest) k = (k0, v0) :: mapDelete rest k := by
            simp [mapDelete, List.filter_cons, hk]
          rw [hcons]
          simp [mapGet, hk', ih]

theorem remapKeyStep_noop {src dst : String} {args : Args}
    (h : mapGet args src = none) : remapKeyStep src dst args = args := by
  simp [remapKeyStep, h]

theorem remapKeyStep_src_none (src dst : String) (args : Args) (hsd : src ≠ dst) :
    mapGet (remapKeyStep src dst args) src = none := by
  cases hget : mapGet args src with
  | none => simp [remapKeyStep, hget]
  | some v =>
      cases hdst : mapGet (mapDelete args src) dst with
      | none =>
          have heq : remapKeyStep src dst args = mapSet (mapDelete args src) dst v := by
            simp [remapKeyStep, hget, hdst]
          rw [heq, mapGet_mapSet_ne _ dst src v (Ne.symm hsd)]
          exact mapGet_mapDelete_self args src
      | some w =>
          have heq : remapKeyStep src dst args = mapDelete args src := by
            simp [remapKeyStep, hget, hdst]
          rw [heq]
          exact mapGet_mapDelete_self args src

theorem remapKeyStep_frame (src dst : String) (args : Args) (k : String)
    (hks : k ≠ src) (hkd : k ≠ dst) :
    mapGet (remapKeyStep src dst args) k = mapGet args k := by
  cases hget : mapGet args src with
  | none => simp [remapKeyStep, hget]
  | some v =>
      cases hdst : mapGet (mapDelete args src) dst with
      | none =>
          have heq : remapKeyStep src dst args = mapSet (mapDelete args src) dst v := by
            simp [remapKeyStep, hget, hdst]
          rw [heq, mapGet_mapSet_ne _ dst k v hkd.symm]
          exact mapGet_mapDelete_ne args src k (fun h => hks h.symm)
      | some w =>
          have heq : remapKeyStep src dst args = mapDelete args src := by
            simp [remapKeyStep, hget, hdst]
          rw [heq]
          exact mapGet_mapDelete_ne args src k (fun h => hks h.symm)

theorem remapKeyStep_dst_present (src dst : String) (args : Args) (v : JSVal)
    (hsd : src ≠ dst) (h : mapGet args dst = some v) :
    mapGet (remapKeyStep src dst args) dst = some v := by
  cases hget : mapGet args src with
  | none => simp [remapKeyStep, hget, h]
  | some w =>
      have hdel : mapGet (mapDelete args src) dst = some v := by
        rw [mapGet_mapDelete_ne args src dst hsd]; exact h
      have heq : remapKeyStep src dst args = mapDelete args src := by
        simp [remapKeyStep, hget, hdel]
      rw [heq]
      exact hdel

theorem grepIncludesStep_noop {args : Args}
    (h : mapGet args "includes" = none) : grepIncludesStep args = args := by
  simp [grepIncludesStep, h]

/-- The comma-joined include string computed by the `includes` block. -/
def includesJoin (inc : JSVal) : String :=
  match inc with
  | .arr elems =>
      String.intercalate ","
        (elems.filterMap fun v =>
          match v with
          | .str s => some s
          | _ => none)
  | .str s => s
  | _ => ""

theorem grepIncludesStep_eq_of_found (args : Args) (inc : JSVal)
    (hget : mapGet args "includes" = some inc)
    (hdst : mapGet (mapDelete args "includes") "include" = none) :
    grepIncludesStep args =
      (if includesJoin inc = "" then mapDelete args "includes"
       else mapSet (mapDelete args "includes") "include" (.str (includesJoin inc))) := by
  simp [grepIncludesStep, hget, hdst, includesJoin]

theorem grepIncludesStep_eq_of_present (args : Args) (inc : JSVal)
    (hget : mapGet args "includes" = some inc)
    (hdst : mapGet (mapDelete args "includes") "include" ≠ none) :
    grepIncludesStep args = mapDelete args "includes" := by
  cases hw : mapGet (mapDelete args "includes") "include" with
  | none => exact absurd hw hdst
  | some w => simp [grepIncludesStep, hget, hw]

theorem grepIncludesStep_includes_none (args : Args) :
    mapGet (grepIncludesStep args) "includes" = none := by
  cases hget : mapGet args "includes" with
  | none => simp [grepIncludesStep, hget]
  | some inc =>
      cases hdst : mapGet (mapDelete args "includes") "include" with
      | some w =>
          rw [grepIncludesStep_eq_of_present args inc hget (by rw [hdst]; exact fun h => by cases h)]
          exact mapGet_mapDelete_self args "includes"
      | none =>
          rw [grepIncludesStep_eq_of_found args inc hget hdst]
          split
          · exact mapGet_mapDelete_self args "includes"
          · rw [mapGet_mapSet_ne _ "include" "includes" _ (by decide)]
            exact mapGet_mapDelete_self args "includes"

theorem grepIncludesStep_frame (args : Args) (k : String)
    (h1 : k ≠ "includes") (h2 : k ≠ "include") :
    mapGet (grepIncludesStep args) k = mapGet args k := by
  cases hget : mapGet args "includes" with
  | none => simp [grepIncludesStep, hget]
  | some inc =>
      have hdel : mapGet (mapDelete args "includes") k = mapGet args k :=
        mapGet_mapDelete_ne args "includes" k (fun h => h1 h.symm)
      cases hdst : mapGet (mapDelete args "includes") "include" with
      | some w =>
          rw [grepIncludesStep_eq_of_present args inc hget (by rw [hdst]; exact fun h => by cases h)]
          exact hdel
      | none =>
          rw [grepIncludesStep_eq_of_found args inc hget hdst]
          split
          · exact hdel
          · rw [mapGet_mapSet_ne _ "include" k _ h2.symm]
            exact hdel

theorem grepDashNStep_noop {args : Args}
    (h : mapGet args "-n" = none) : grepDashNStep args = args := by
  simp [grepDashNStep, h]

theorem grepDashNStep_dashN_none (args : Args) :
    mapGet (grepDashNStep args) "-n" = none := by
  cases hget : mapGet args "-n" with
  | none => simp [grepDashNStep, hget]
  | some nVal =>
      cases hc : coerceToBool nVal with
      | none =>
          have heq : grepDashNStep args = mapDelete args "-n" := by
            simp [grepDashNStep, hget, hc]
          rw [heq]; exact mapGet_mapDelete_self args "-n"
      | some b =>
          cases hdst : mapGet (mapDelete args "-n") "lineNumbers" with
          | some w =>
              have heq : grepDashNStep args = mapDelete args "-n" := by
                simp [grepDashNStep, hget, hc, hdst]
              rw [heq]; exact mapGet_mapDelete_self args "-n"
          | none =>
              have heq : grepDashNStep args =
                  mapSet (mapDelete args "-n") "lineNumbers" (.bool b) := by
                simp [grepDashNStep, hget, hc, hdst]
              rw [heq, mapGet_mapSet_ne _ "lineNumbers" "-n" _ (by decide)]
              exact mapGet_mapDelete_self args "-n"

theorem grepDashNStep_frame (args : Args) (k : String)
    (h1 : k ≠ "-n") (h2 : k ≠ "lineNumbers") :
    mapGet (grepDashNStep args) k = mapGet args k := by
  cases hget : mapGet args "-n" with
  | none => simp [grepDashNStep, hget]
  | some nVal =>
      have hdel : mapGet (mapDelete args "-n") k = mapGet args k :=
        mapGet_mapDelete_ne args "-n" k (fun h => h1 h.symm)
      cases hc : coerceToBool nVal with
      | none =>
          have heq : grepDashNStep args = mapDelete args "-n" := by
            simp [grepDashNStep, hget, hc]
          rw [heq]; exact hdel
      | some b =>
          cases hdst : mapGet (mapDelete args "-n") "lineNumbers" with
          | some w =>
              have heq : grepDashNStep args = mapDelete args "-n" := by
                simp [grepDashNStep, hget, hc, hdst]
              rw [heq]; exact hdel
          | none =>
              have heq : grepDashNStep args =
                  mapSet (mapDelete args "-n") "lineNumbers" (.bool b) := by
                simp [grepDashNStep, hget, hc, hdst]
              rw [heq, mapGet_mapSet_ne _ "lineNumbers" k _ h2.symm]
              exact hdel

/-- The value of a parameter that the boolean-coercion loop can no
longer change: either not a string, or a string `coerceToBool` rejects. -/
def boolStable (o : Option JSVal) : Prop :=
  ∀ s : String, o = some (.str s) → coerceToBool (.str s) = none

theorem coerceBoolParam_eq_self_of_fail {args : Args} {param s0 : String}
    (hget : mapGet args param = some (.str s0))
    (hc : coerceToBool (.str s0) = none) : coerceBoolParam args param = args := by
  simp [coerceBoolParam, hget, hc]

theorem coerceBoolParam_eq_set_of_coerce {args : Args} {param s0 : String} {b : Bool}
    (hget : mapGet args param = some (.str s0))
    (hc : coerceToBool (.str s0) = some b) :
    coerceBoolParam args param = mapSet args param (.bool b) := by
  simp [coerceBoolParam, hget, hc]

theorem coerceBoolParam_eq_self_of_nonstr {args : Args} {param : String}
    (h : ∀ s : String, mapGet args param ≠ some (.str s)) :
    coerceBoolParam args param = args := by
  unfold coerceBoolParam
  cases hget : mapGet args param with
  | none => rfl
  | some v =>
      cases v with
      | str s => exact absurd hget (h s)
      | bool b => rfl
      | num n => rfl
      | arr l => rfl
      | null => rfl
      | obj => rfl

theorem coerceBoolParam_noop {args : Args} {param : String}
    (h : boolStable (mapGet args param)) : coerceBoolParam args param = args := by
  by_cases hstr : ∃ s : String, mapGet args param = some (.str s)
  · obtain ⟨s, hs⟩ := hstr
    exact coerceBoolParam_eq_self_of_fail hs (h s hs)
  · push_neg at hstr
    exact coerceBoolParam_eq_self_of_nonstr hstr

theorem coerceBoolParam_stable (args : Args) (param : String) :
    boolStable (mapGet (coerceBoolParam args param) param) := by
  by_cases hstr : ∃ s : String, mapGet args param = some (.str s)
  · obtain ⟨s0, hs0⟩ := hstr
    cases hc : coerceToBool (.str s0) with
    | none =>
        rw [coerceBoolParam_eq_self_of_fail hs0 hc]
        intro s hs
        rw [hs0] at hs
        cases hs
        exact hc
    | some b =>
        rw [coerceBoolParam_eq_set_of_coerce hs0 hc]
        intro s hs
        rw [mapGet_mapSet_self] at hs
        cases hs
  · push_neg at hstr
    rw [coerceBoolParam_eq_self_of_nonstr hstr]
    intro s hs
    exact absurd hs (hstr s)

theorem coerceBoolParam_frame (args : Args) (param k : String) (h : k ≠ param) :
    mapGet (coerceBoolParam args param) k = mapGet args k := by
  by_cases hstr : ∃ s : String, mapGet args param = some (.str s)
  · obtain ⟨s0, hs0⟩ := hstr
    cases hc : coerceToBool (.str s0) with
    | none => rw [coerceBoolParam_eq_self_of_fail hs0 hc]
    | some b =>
        rw [coerceBoolParam_eq_set_of_coerce hs0 hc]
        exact mapGet_mapSet_ne args param k _ (fun hh => h hh.symm)
  · push_neg at hstr
    rw [coerceBoolParam_eq_self_of_nonstr hstr]

theorem grepBoolCoerceStep_def (args : Args) :
    grepBoolCoerceStep args =
      coerceBoolParam (coerceBoolParam (coerceBoolParam (coerceBoolParam
        (coerceBoolParam args "ignoreCase") "lineNumbers") "caseSensitive")
        "regex") "wholeWord" := rfl

theorem grepBoolCoerceStep_frame (args : Args) (k : String)
    (h1 : k ≠ "ignoreCase") (h2 : k ≠ "lineNumbers") (h3 : k ≠ "caseSensitive")
    (h4 : k ≠ "regex") (h5 : k ≠ "wholeWord") :
    mapGet (grepBoolCoerceStep args) k = mapGet args k := by
  rw [grepBoolCoerceStep_def,
    coerceBoolParam_frame _ "wholeWord" k h5,
    coerceBoolParam_frame _ "regex" k h4,
    coerceBoolParam_frame _ "caseSensitive" k h3,
    coerceBoolParam_frame _ "lineNumbers" k h2,
    coerceBoolParam_frame _ "ignoreCase" k h1]

theorem grepBoolCoerceStep_stable (args : Args) :
    boolStable (mapGet (grepBoolCoerceStep args) "ignoreCase") ∧
    boolStable (mapGet (grepBoolCoerceStep args) "lineNumbers") ∧
    boolStable (mapGet (grepBoolCoerceStep args) "caseSensitive") ∧
    boolStable (mapGet (grepBoolCoerceStep args) "regex") ∧
    boolStable (mapGet (grepBoolCoerceStep args) "wholeWord") := by
  rw [grepBoolCoerceStep_def]
  refine ⟨?_, ?_, ?_, ?_, ?_⟩
  · rw [coerceBoolParam_frame _ "wholeWord" _ (by decide),
      coerceBoolParam_frame _ "regex" _ (by decide),
      coerceBoolParam_frame _ "caseSensitive" _ (by decide),
      coerceBoolParam_frame _ "lineNumbers" _ (by decide)]
    exact coerceBoolParam_stable args "ignoreCase"
  · rw [coerceBoolParam_frame _ "wholeWord" _ (by decide),
      coerceBoolParam_frame _ "regex" _ (by decide),
      coerceBoolParam_frame _ "caseSensitive" _ (by decide)]
    exact coerceBoolParam_stable _ "lineNumbers"
  · rw [coerceBoolParam_frame _ "wholeWord" _ (by decide),
      coerceBoolParam_frame _ "regex" _ (by decide)]
    exact coerceBoolParam_stable _ "caseSensitive"
  · rw [coerceBoolParam_frame _ "wholeWord" _ (by decide)]
    exact coerceBoolParam_stable _ "regex"
  · exact coerceBoolParam_stable _ "wholeWord"

theorem grepBoolCoerceStep_noop (args : Args)
    (h1 : boolStable (mapGet args "ignoreCase"))
    (h2 : boolStable (mapGet args "lineNumbers"))
    (h3 : boolStable (mapGet args "caseSensitive"))
    (h4 : boolStable (mapGet args "regex"))
    (h5 : boolStable (mapGet args "wholeWord")) :
    grepBoolCoerceStep args = args := by
  rw [grepBoolCoerceStep_def, coerceBoolParam_noop h1, coerceBoolParam_noop h2,
    coerceBoolParam_noop h3, coerceBoolParam_noop h4, coerceBoolParam_noop h5]

/-- After one pass of the Grep branch the malformed keys are gone and
every known boolean parameter is past coercion. -/
theorem remapGrep_post (args : Args) :
    mapGet (remapGrep args) "description" = none ∧
    mapGet (remapGrep args) "query" = none ∧
    mapGet (remapGrep args) "includes" = none ∧
    mapGet (remapGrep args) "ignore_case" = none ∧
    mapGet (remapGrep args) "-n" = none ∧
    boolStable (mapGet (remapGrep args) "ignoreCase") ∧
    boolStable (mapGet (remapGrep args) "lineNumbers") ∧
    boolStable (mapGet (remapGrep args) "caseSensitive") ∧
    boolStable (mapGet (remapGrep args) "regex") ∧
    boolStable (mapGet (remapGrep args) "wholeWord") := by
  unfold remapGrep
  refine ⟨?_, ?_, ?_, ?_, ?_, ?_⟩
  · rw [grepBoolCoerceStep_frame _ _ (by decide) (by decide) (by decide) (by decide) (by decide),
      grepDashNStep_frame _ _ (by decide) (by decide),
      remapKeyStep_frame _ _ _ _ (by decide) (by decide),
      grepIncludesStep_frame _ _ (by decide) (by decide),
      remapKeyStep_frame _ _ _ _ (by decide) (by decide)]
    exact remapKeyStep_src_none "description" "pattern" args (by decide)
  · rw [grepBoolCoerceStep_frame _ _ (by decide) (by decide) (by decide) (by decide) (by decide),
      grepDashNStep_frame _ _ (by decide) (by decide),
      remapKeyStep_frame _ _ _ _ (by decide) (by decide),
      grepIncludesStep_frame _ _ (by decide) (by decide)]
    exact remapKeyStep_src_none "query" "pattern" _ (by decide)
  · rw [grepBoolCoerceStep_frame _ _ (by decide) (by decide) (by decide) (by decide) (by decide),
      grepDashNStep_frame _ _ (by decide) (by decide),
      remapKeyStep_frame _ _ _ _ (by decide) (by decide)]
    exact grepIncludesStep_includes_none _
  · rw [grepBoolCoerceStep_frame _ _ (by decide) (by decide) (by decide) (by decide) (by decide),
      grepDashNStep_frame _ _ (by decide) (by decide)]
    exact remapKeyStep_src_none "ignore_case" "ignoreCase" _ (by decide)
  · rw [grepBoolCoerceStep_frame _ _ (by decide) (by decide) (by decide) (by decide) (by decide)]
    exact grepDashNStep_dashN_none _
  · exact ⟨(grepBoolCoerceStep_stable _).1, (grepBoolCoerceStep_stable _).2.1,
      (grepBoolCoerceStep_stable _).2.2.1, (grepBoolCoerceStep_stable _).2.2.2.1,
      (grepBoolCoerceStep_stable _).2.2.2.2⟩

theorem remapGrep_idem (args : Args) : remapGrep (remapGrep args) = remapGrep args := by
  obtain ⟨hd, hq, hi, hic, hn, hb1, hb2, hb3, hb4, hb5⟩ := remapGrep_post args
  conv_lhs => rw [remapGrep]
  rw [remapKeyStep_noop hd, remapKeyStep_noop hq, grepIncludesStep_noop hi,
    remapKeyStep_noop hic, grepDashNStep_noop hn,
    grepBoolCoerceStep_noop _ hb1 hb2 hb3 hb4 hb5]

/-- After one pass of the Glob branch the malformed keys are gone. -/
theorem remapGlob_post (args : Args) :
    mapGet (remapGlob args) "description" = none ∧
    mapGet (remapGlob args) "query" = none := by
  unfold remapGlob
  constructor
  · rw [remapKeyStep_frame _ _ _ _ (by decide) (by decide)]
    exact remapKeyStep_src_none "description" "pattern" args (by decide)
  · exact remapKeyStep_src_none "query" "pattern" _ (by decide)

theorem remapGlob_idem (args : Args) : remapGlob (remapGlob args) = remapGlob args := by
  obtain ⟨hd, hq⟩ := remapGlob_post args
  conv_lhs => rw [remapGlob]
  rw [remapKeyStep_noop hd, remapKeyStep_noop hq]

/-- C6: `remapFunctionCallArgs` is idempotent — a second application to
any tool name and any arguments object changes nothing, so arguments
already in canonical form are left untouched. -/
theorem remapFunctionCallArgs_idempotent (toolName : String) (args : Args) :
    remapFunctionCallArgs toolName (remapFunctionCallArgs toolName args) =
      remapFunctionCallArgs toolName args := by
  unfold remapFunctionCallArgs
  by_cases hg : jsToLower toolName = "grep"
  · simp [hg, remapGrep_idem]
  · by_cases hb : jsToLower toolName = "glob"
    · simp [hg, hb, remapGlob_idem]
    · simp [hg, hb]

/-- C9: for Grep and Glob, a malformed `description`/`query` key is
deleted but never overwrites an already-present `pattern` value. -/
theorem remapFunctionCallArgs_preserves_existing_pattern (args : Args) (v : JSVal)
    (hpat : mapGet args "pattern" = some v)
    (hmal : mapGet args "description" ≠ none ∨ mapGet args "query" ≠ none) :
    (mapGet (remapFunctionCallArgs "grep" args) "description" = none ∧
     mapGet (remapFunctionCallArgs "grep" args) "query" = none ∧
     mapGet (remapFunctionCallArgs "grep" args) "pattern" = some v) ∧
    (mapGet (remapFunctionCallArgs "glob" args) "description" = none ∧
     mapGet (remapFunctionCallArgs "glob" args) "query" = none ∧
     mapGet (remapFunctionCallArgs "glob" args) "pattern" = some v) := by
  have hgrep : remapFunctionCallArgs "grep" args = remapGrep args := by
    simp [remapFunctionCallArgs, show jsToLower "grep" = "grep" by decide]
  have hglob : remapFunctionCallArgs "glob" args = remapGlob args := by
    simp [remapFunctionCallArgs, show jsToLower "glob" = "glob" by decide,
      show "glob" ≠ "grep" by decide]
  have hpat1 : mapGet (remapKeyStep "description" "pattern" args) "pattern" = some v :=
    remapKeyStep_dst_present _ _ _ _ (by decide) hpat
  have hpat2 : mapGet (remapKeyStep "query" "pattern"
      (remapKeyStep "description" "pattern" args)) "pattern" = some v :=
    remapKeyStep_dst_present _ _ _ _ (by decide) hpat1
  constructor
  · refine ⟨hgrep ▸ (remapGrep_post args).1, hgrep ▸ (remapGrep_post args).2.1, ?_⟩
    rw [hgrep]
    unfold remapGrep
    rw [grepBoolCoerceStep_frame _ _ (by decide) (by decide) (by decide) (by decide) (by decide),
      grepDashNStep_frame _ _ (by decide) (by decide),
      remapKeyStep_frame _ _ _ _ (by decide) (by decide),
      grepIncludesStep_frame _ _ (by decide) (by decide)]
    exact hpat2
  · refine ⟨hglob ▸ (remapGlob_post args).1, hglob ▸ (remapGlob_post args).2, ?_⟩
    rw [hglob]
    unfold remapGlob
    exact hpat2

/-- C9 witness: concrete arguments carrying both malformed keys and an
existing pattern. -/
theorem remapFunctionCallArgs_preserves_existing_pattern_witness :
    (mapGet (remapFunctionCallArgs "grep"
        [("description", .str "d"), ("pattern", .str "p"), ("query", .str "q")])
      "description" = none ∧
     mapGet (remapFunctionCallArgs "grep"
        [("description", .str "d"), ("pattern", .str "p"), ("query", .str "q")])
      "query" = none ∧
     mapGet (remapFunctionCallArgs "grep"
        [("description", .str "d"), ("pattern", .str "p"), ("query", .str "q")])
      "pattern" = some (.str "p")) ∧
    (mapGet (remapFunctionCallArgs "glob"
        [("description", .str "d"), ("pattern", .str "p"), ("query", .str "q")])
      "description" = none ∧
     mapGet (remapFunctionCallArgs "glob"
        [("description", .str "d"), ("pattern", .str "p"), ("query", .str "q")])
      "query" = none ∧
     mapGet (remapFunctionCallArgs "glob"
        [("description", .str "d"), ("pattern", .str "p"), ("query", .str "q")])
      "pattern" = some (.str "p")) :=
  remapFunctionCallArgs_preserves_existing_pattern
    [("description", .str "d"), ("pattern", .str "p"), ("query", .str "q")]
    (.str "p") (by simp [mapGet]) (Or.inl (by simp [mapGet]))

/-! ## Credential-store reader (`src/auth/database.js`)

The environment at a database path: whether the native `better-sqlite3`
module loads, and what is behind the path.  `loadDatabaseModule` either
yields the constructor, throws a `NativeModuleError` (version mismatch,
rebuild attempted), or rethrows the original load error; opening with
`fileMustExist: true` throws `SQLITE_CANTOPEN` when the file does not
exist or cannot be opened. -/

/-- Outcome of `loadDatabaseModule()`. -/
inductive ModuleLoad where
  | ok
  | failedNative (msg : String)
  | failedOther (msg : String)
deriving DecidableEq, Repr

/-- What the auth query finds once a connection is open: no row (or a
null value), a value `JSON.parse` rejects, or a parsed record whose
`apiKey` may be empty (missing and `""` are both falsy). -/
inductive RowState where
  | noRow
  | badJson (parseMsg : String)
  | record (apiKey email name : String)
deriving DecidableEq, Repr

/-- The database file behind a path: absent / unopenable, or openable
with some row state. -/
inductive FileState where
  | absent
  | openable (row : RowState)
deriving DecidableEq, Repr

/-- Environment a call to the database module runs in. -/
structure DbEnv where
  moduleLoad : ModuleLoad
  file : FileState
deriving DecidableEq, Repr

/-- A thrown JavaScript error, as the catch block of `getAuthStatus`
discriminates it: `error.code` equal to `SQLITE_CANTOPEN`,
`error instanceof NativeModuleError`, or anything else. -/
inductive JsError where
  | sqliteCantOpen
  | nativeModule (msg : String)
  | generic (msg : String)
deriving DecidableEq, Repr

/-- `getDatabaseConnection(dbPath)`: load the module (may throw), then
open the file with `fileMustExist: true` (throws `SQLITE_CANTOPEN` when
it cannot be opened).  The connection cache only short-circuits to the
same open connection and is invisible here. -/
def getDatabaseConnection (env : DbEnv) : Except JsError RowState :=
  match env.moduleLoad with
  | .failedNative msg => .error (.nativeModule msg)
  | .failedOther msg => .error (.generic msg)
  | .ok =>
      match env.file with
      | .absent => .error .sqliteCantOpen
      | .openable row => .ok row

/-- The parsed auth record `{apiKey, email, name, ...}`. -/
structure AuthData where
  apiKey : String
  email : String
  name : String
deriving DecidableEq, Repr

/-- `getAuthStatus(dbPath)`: query the row, parse it, insist on a truthy
`apiKey`; the catch block maps `SQLITE_CANTOPEN` to the
`Database not found at ...` message, rethrows its own
`No auth status` / `missing apiKey` errors and `NativeModuleError`s
unchanged, and wraps everything else in
`Failed to read Antigravity database: ...`. -/
def getAuthStatus (dbPath : String) (env : DbEnv) : Except String AuthData :=
  match getDatabaseConnection env with
  | .error .sqliteCantOpen =>
      .error ("Database not found at " ++ dbPath ++
        ". Make sure Antigravity is installed and you are logged in.")
  | .error (.nativeModule msg) => .error msg
  | .error (.generic msg) => .error ("Failed to read Antigravity database: " ++ msg)
  | .ok row =>
      match row with
      | .noRow => .error "No auth status found in database"
      | .badJson parseMsg =>
          .error ("Failed to read Antigravity database: " ++ parseMsg)
      | .record apiKey email name =>
          if apiKey = "" then .error "Auth data missing apiKey field"
          else .ok ⟨apiKey, email, name⟩

/-- `isDatabaseAccessible(dbPath)`: `try { getDatabaseConnection(dbPath);
return true } catch { return false }`. -/
def isDatabaseAccessible (env : DbEnv) : Bool :=
  match getDatabaseConnection env with
  | .ok _ => true
  | .error _ => false

/-- A message classified as "not found": it contains the substring
`Database not found`. -/
def mentionsDatabaseNotFound (msg : String) : Prop :=
  "Database not found".data <:+: msg.data

instance (msg : String) : Decidable (mentionsDatabaseNotFound msg) := by
  unfold mentionsDatabaseNotFound; infer_instance

/-- C8 counterexample: when the native module fails to load, a call on a
path whose database file does not exist surfaces the load error, whose
message does not contain `Database not found`. -/
theorem getAuthStatus_notFound_counterexample :
    getAuthStatus "/missing/state.vscdb"
        ⟨.failedOther "Cannot find module better-sqlite3", .absent⟩ =
      .error "Failed to read Antigravity database: Cannot find module better-sqlite3" ∧
    ¬ mentionsDatabaseNotFound
        "Failed to read Antigravity database: Cannot find module better-sqlite3" :=
  ⟨rfl, by decide⟩

/-- C8 (amended): `getAuthStatus` returns a record with a non-empty
`apiKey` or throws, and — provided the native module loads — a file that
does not exist or cannot be opened yields an error whose message
contains `Database not found`. -/
theorem getAuthStatus_spec (dbPath : String) (env : DbEnv) :
    (∀ a : AuthData, getAuthStatus dbPath env = .ok a → a.apiKey ≠ "") ∧
    (env.moduleLoad = .ok → env.file = .absent →
      ∃ msg, getAuthStatus dbPath env = .error msg ∧ mentionsDatabaseNotFound msg) := by
  constructor
  · intro a ha
    obtain ⟨ml, file⟩ := env
    cases ml <;> simp [getAuthStatus, getDatabaseConnection] at ha
    cases file with
    | absent => simp [getAuthStatus, getDatabaseConnection] at ha
    | openable row =>
        cases row with
        | noRow => simp [getAuthStatus, getDatabaseConnection] at ha
        | badJson m => simp [getAuthStatus, getDatabaseConnection] at ha
        | record apiKey email name =>
            by_cases hk : apiKey = ""
            · simp [getAuthStatus, getDatabaseConnection, hk] at ha
            · simp [getAuthStatus, getDatabaseConnection, hk] at ha
              rw [← ha]
              exact hk
  · intro hmod hfile
    obtain ⟨ml, file⟩ := env
    cases hmod
    cases hfile
    refine ⟨"Database not found at " ++ dbPath ++
      ". Make sure Antigravity is installed and you are logged in.", rfl, ?_⟩
    unfold mentionsDatabaseNotFound
    have hdata : ("Database not found at " ++ dbPath ++
        ". Make sure Antigravity is installed and you are logged in.").data =
        "Database not found".data ++ (" at ".data ++ dbPath.data ++
          ". Make sure Antigravity is installed and you are logged in.".data) := by
      rw [String.data_append, String.data_append]
      have : "Database not found at ".data = "Database not found".data ++ " at ".data := by
        decide
      rw [this]
      simp
    rw [hdata]
    exact ⟨[], " at ".data ++ dbPath.data ++
      ". Make sure Antigravity is installed and you are logged in.".data, by simp⟩

/-- C8 witness: with a loadable module and a missing file the error is
classified "not found". -/
theorem getAuthStatus_spec_witness :
    ∃ msg, getAuthStatus "/home/user/state.vscdb" ⟨.ok, .absent⟩ = .error msg ∧
      mentionsDatabaseNotFound msg :=
  (getAuthStatus_spec "/home/user/state.vscdb" ⟨.ok, .absent⟩).2 rfl rfl

/-- C10: `isDatabaseAccessible` is a total boolean classifier of
the outcome of `getDatabaseConnection` — `true` exactly when a connection
opens, `false` exactly when opening throws (missing file, module-load
failure, or any other error), never propagating the exception. -/
theorem isDatabaseAccessible_total (env : DbEnv) :
    (isDatabaseAccessible env = true ↔ ∃ row, getDatabaseConnection env = .ok row) ∧
    (isDatabaseAccessible env = false ↔ ∃ e, getDatabaseConnection env = .error e) := by
  cases hc : getDatabaseConnection env with
  | ok row =>
      constructor
      · simp [isDatabaseAccessible, hc]
      · simp [isDatabaseAccessible, hc]
  | error e =>
      constructor
      · simp [isDatabaseAccessible, hc]
      · simp [isDatabaseAccessible, hc]

/-! ## AccountPool selection (spec-modelled)

The AccountPool implementation is available here only through its mock
in `tests/test-endpoint-failover.cjs`; the definitions below follow
§3/§4.1 of the specification. -/

/-- Modelled from the spec: an Account (§3) — stable identifier,
`rateLimitedUntil` (absent or a timestamp), `consecutiveFailures`, and
a last-use time for the least-recently-used tie break.  The AccountPool
source is not under `src/`. -/
structure Account where
  email : String
  rateLimitedUntil : Option Int
  consecutiveFailures : Nat
  lastUsed : Int
deriving DecidableEq, Repr

/-- Modelled from the spec: an account is available iff
`rateLimitedUntil` is absent or not in the future. -/
def isAvailable (now : Int) (a : Account) : Bool :=
  match a.rateLimitedUntil with
  | none => true
  | some t => decide (t ≤ now)

/-- Modelled from the spec: the remaining rate-limit duration of one
account (zero when it is not rate-limited). -/
def remainingWait (now : Int) (a : Account) : Int :=
  match a.rateLimitedUntil with
  | none => 0
  | some t => t - now

/-- Modelled from the spec: the selection policy prefers fewest
`consecutiveFailures`, ties broken by least-recently-used. -/
def preferred (a b : Account) : Bool :=
  decide (a.consecutiveFailures < b.consecutiveFailures ∨
    (a.consecutiveFailures = b.consecutiveFailures ∧ a.lastUsed < b.lastUsed))

/-- Modelled from the spec: pick the policy-best account of a list. -/
def selectBest : List Account → Option Account
  | [] => none
  | a :: rest =>
      match selectBest rest with
      | none => some a
      | some b => if preferred b a then some b else some a

/-- Modelled from the spec: the minimum remaining rate-limit duration
across all accounts, clamped to never be negative. -/
def minWaitMs (now : Int) (pool : List Account) : Int :=
  match pool.map (remainingWait now) with
  | [] => 0
  | w :: ws => max 0 (ws.foldl min w)

/-- Modelled from the spec: `selectAccount()` — an available account
with `waitMs = 0`, or no account and the minimum remaining wait. -/
def selectAccount (now : Int) (pool : List Account) : Option Account × Int :=
  match selectBest (pool.filter (isAvailable now)) with
  | some a => (some a, 0)
  | none => (none, minWaitMs now pool)

theorem selectBest_mem : ∀ (l : List Account) (a : Account), selectBest l = some a → a ∈ l := by
  intro l
  induction l with
  | nil => intro a h; cases h
  | cons x rest ih =>
      intro a h
      unfold selectBest at h
      cases hr : selectBest rest with
      | none =>
          rw [hr] at h
          cases h
          exact List.mem_cons_self _ _
      | some b =>
          rw [hr] at h
          by_cases hp : preferred b x = true
          · have hab : b = a := by simpa [hp] using h
            subst hab
            exact List.mem_cons_of_mem _ (ih _ hr)
          · have hax : x = a := by simpa [hp] using h
            subst hax
            exact List.mem_cons_self _ _

theorem selectBest_ne_none : ∀ (l : List Account), l ≠ [] → selectBest l ≠ none := by
  intro l hl
  cases l with
  | nil => exact absurd rfl hl
  | cons x rest =>
      unfold selectBest
      cases hr : selectBest rest with
      | none => simp
      | some b => by_cases hp : preferred b x = true <;> simp [hp]

theorem foldl_min_le_start (w : Int) (ws : List Int) : ws.foldl min w ≤ w := by
  induction ws generalizing w with
  | nil => simp
  | cons x xs ih =>
      calc (x :: xs).foldl min w = xs.foldl min (min w x) := rfl
        _ ≤ min w x := ih _
        _ ≤ w := min_le_left _ _

theorem foldl_min_le_mem (w : Int) (ws : List Int) :
    ∀ x ∈ ws, ws.foldl min w ≤ x := by
  induction ws generalizing w with
  | nil => intro x hx; cases hx
  | cons y ys ih =>
      intro x hx
      rcases List.mem_cons.mp hx with h | h
      · subst h
        calc (x :: ys).foldl min w = ys.foldl min (min w x) := rfl
          _ ≤ min w x := foldl_min_le_start _ _
          _ ≤ x := min_le_right _ _
      · exact ih (min w y) x h

theorem foldl_min_mem (w : Int) (ws : List Int) :
    ws.foldl min w = w ∨ ws.foldl min w ∈ ws := by
  induction ws generalizing w with
  | nil => left; rfl
  | cons y ys ih =>
      rcases ih (min w y) with h | h
      · rcases le_total w y with hwy | hyw
        · left
          calc (y :: ys).foldl min w = ys.foldl min (min w y) := rfl
            _ = min w y := h
            _ = w := min_eq_left hwy
        · right
          refine List.mem_cons.mpr (Or.inl ?_)
          calc (y :: ys).foldl min w = ys.foldl min (min w y) := rfl
            _ = min w y := h
            _ = y := min_eq_right hyw
      · right
        exact List.mem_cons_of_mem _ h

/-- C3: when no account is available, `selectAccount` returns no account
together with the minimum remaining rate-limit duration across all
accounts, never negative; when some account is available it returns an
available account with `waitMs = 0`, never one rate-limited into the
future. -/
theorem selectAccount_spec (now : Int) (pool : List Account) :
    (pool ≠ [] → (∀ a ∈ pool, isAvailable now a = false) →
      (selectAccount now pool).1 = none ∧
      0 ≤ (selectAccount now pool).2 ∧
      (∀ a ∈ pool, (selectAccount now pool).2 ≤ remainingWait now a) ∧
      (∃ a ∈ pool, (selectAccount now pool).2 = remainingWait now a)) ∧
    ((∃ a ∈ pool, isAvailable now a = true) →
      ∃ b, selectAccount now pool = (some b, 0) ∧ b ∈ pool ∧
        isAvailable now b = true) := by
  constructor
  · intro hne hall
    have hfil : pool.filter (isAvailable now) = [] :=
      List.filter_eq_nil.mpr (fun a ha => by rw [hall a ha]; exact Bool.false_ne_true)
    have hsel : selectAccount now pool = (none, minWaitMs now pool) := by
      unfold selectAccount
      rw [hfil]
      rfl
    have hpos : ∀ a ∈ pool, 0 < remainingWait now a := by
      intro a ha
      have h := hall a ha
      unfold isAvailable at h
      cases ht : a.rateLimitedUntil with
      | none => rw [ht] at h; cases h
      | some t =>
          rw [ht] at h
          have hlt : ¬ t ≤ now := by simpa using h
          have hw : remainingWait now a = t - now := by simp [remainingWait, ht]
          rw [hw]
          omega
    cases pool with
    | nil => exact absurd rfl hne
    | cons a0 rest =>
        have hmap : (a0 :: rest).map (remainingWait now) =
            remainingWait now a0 :: rest.map (remainingWait now) := rfl
        have hmin : minWaitMs now (a0 :: rest) =
            max 0 ((rest.map (remainingWait now)).foldl min (remainingWait now a0)) := by
          unfold minWaitMs
          rw [hmap]
        set M := (rest.map (remainingWait now)).foldl min (remainingWait now a0) with hM
        have hMpos : 0 < M := by
          rcases foldl_min_mem (remainingWait now a0) (rest.map (remainingWait now)) with h | h
          · rw [← hM] at h
            rw [h]
            exact hpos a0 (List.mem_cons_self _ _)
          · rw [← hM] at h
            obtain ⟨a, ha, hwa⟩ := List.mem_map.mp h
            rw [← hwa]
            exact hpos a (List.mem_cons_of_mem _ ha)
        have hmax : max 0 M = M := max_eq_right hMpos.le
        refine ⟨by rw [hsel], by rw [hsel]; exact le_max_left _ _, ?_, ?_⟩
        · intro a ha
          rw [hsel]
          simp only []
          rw [hmin, hmax]
          rcases List.mem_cons.mp ha with h | h
          · subst h
            exact foldl_min_le_start _ _
          · exact foldl_min_le_mem _ _ _ (List.mem_map_of_mem _ h)
        · rw [hsel]
          simp only []
          rw [hmin, hmax]
          rcases foldl_min_mem (remainingWait now a0) (rest.map (remainingWait now)) with h | h
          · exact ⟨a0, List.mem_cons_self _ _, h⟩
          · obtain ⟨a, ha, hwa⟩ := List.mem_map.mp h
            exact ⟨a, List.mem_cons_of_mem _ ha, hwa.symm⟩
  · intro hex
    obtain ⟨a, ha, hav⟩ := hex
    have hmemfil : a ∈ pool.filter (isAvailable now) :=
      List.mem_filter.mpr ⟨ha, hav⟩
    have hfilne : pool.filter (isAvailable now) ≠ [] := by
      intro hcon
      rw [hcon] at hmemfil
      cases hmemfil
    cases hsel : selectBest (pool.filter (isAvailable now)) with
    | none => exact absurd hsel (selectBest_ne_none _ hfilne)
    | some b =>
        have hbmem := selectBest_mem _ _ hsel
        have hb := List.mem_filter.mp hbmem
        refine ⟨b, ?_, hb.1, hb.2⟩
        unfold selectAccount
        rw [hsel]

/-- C3 witness: a fully rate-limited pool reports the minimum wait, and
a pool with one free account selects it immediately. -/
theorem selectAccount_spec_witness :
    ((selectAccount 100 [⟨"a", some 150, 0, 0⟩, ⟨"b", some 120, 2, 5⟩]).1 = none ∧
     0 ≤ (selectAccount 100 [⟨"a", some 150, 0, 0⟩, ⟨"b", some 120, 2, 5⟩]).2 ∧
     (∀ a ∈ [Account.mk "a" (some 150) 0 0, Account.mk "b" (some 120) 2 5],
        (selectAccount 100 [⟨"a", some 150, 0, 0⟩, ⟨"b", some 120, 2, 5⟩]).2 ≤
          remainingWait 100 a) ∧
     (∃ a ∈ [Account.mk "a" (some 150) 0 0, Account.mk "b" (some 120) 2 5],
        (selectAccount 100 [⟨"a", some 150, 0, 0⟩, ⟨"b", some 120, 2, 5⟩]).2 =
          remainingWait 100 a)) ∧
    (∃ b, selectAccount 100 [⟨"c", some 150, 0, 0⟩, ⟨"d", none, 2, 5⟩] = (some b, 0) ∧
      b ∈ [Account.mk "c" (some 150) 0 0, Account.mk "d" none 2 5] ∧
      isAvailable 100 b = true) :=
  ⟨(selectAccount_spec 100 [⟨"a", some 150, 0, 0⟩, ⟨"b", some 120, 2, 5⟩]).1
      (by decide) (by decide),
   (selectAccount_spec 100 [⟨"c", some 150, 0, 0⟩, ⟨"d", none, 2, 5⟩]).2
      ⟨⟨"d", none, 2, 5⟩, by decide, by decide⟩⟩

/-! ## Dispatcher attempt loop (spec-modelled)

The dispatch handlers (`src/cloudcode/streaming-handler.js`,
`src/cloudcode/message-handler.js`) are available here only through
`tests/test-endpoint-failover.cjs`; the definitions below follow §4.2,
§4.3 and §7 of the specification.  Account rotation, token resolution
and backoff sleeping are orthogonal to the endpoint-ordering claims and
are not modelled: the transport is a function from endpoint base URL to
the classified reply. -/

/-- Modelled from the spec: one decoded frame of a successful response
body — either a decodable data frame carrying text, or a
capacity-exhaustion signal arriving mid-stream.  End of the list is the
transport closing. -/
inductive Chunk where
  | data (text : String)
  | capacitySignal
deriving DecidableEq, Repr

/-- Modelled from the spec: normalized output units forwarded to the
caller. -/
inductive StreamEvent where
  | textDelta (t : String)
  | errorEvent
  | done
deriving DecidableEq, Repr

/-- Modelled from the spec: the classified reply of one upstream HTTP
call — 2xx with a body stream, 503 `MODEL_CAPACITY_EXHAUSTED` before any
body, an account-scoped rate limit, or any other error status. -/
inductive UpstreamReply where
  | ok (chunks : List Chunk)
  | capacity
  | rateLimited
  | otherError (status : Nat)
deriving DecidableEq, Repr

/-- Modelled from the spec: how the stream of one attempt ends. -/
inductive StreamOutcome where
  | completed
  | failoverBeforeOutput
  | terminalError
deriving DecidableEq, Repr

/-- Modelled from the spec: how one logical dispatch ends. -/
inductive Outcome where
  | success
  | capacityExhausted
  | streamError
  | errored (status : Nat)
deriving DecidableEq, Repr

/-- Modelled from the spec: consume a response body in arrival order,
forwarding data frames as `textDelta` events; a capacity signal before
any forwarded output aborts the attempt for failover, one after
forwarded output commits the attempt and terminates with a terminal
error event; end of stream yields `done`.  The Boolean tracks whether
any output has been forwarded. -/
def consumeChunks : List Chunk → Bool → List StreamEvent × StreamOutcome
  | [], _ => ([.done], .completed)
  | .data t :: rest, _ =>
      let (evs, o) := consumeChunks rest true
      (.textDelta t :: evs, o)
  | .capacitySignal :: _, delivered =>
      if delivered then ([.errorEvent], .terminalError)
      else ([], .failoverBeforeOutput)

/-- Modelled from the spec: a fresh translator run over the body of
one attempt. -/
def runStream (chunks : List Chunk) : List StreamEvent × StreamOutcome :=
  consumeChunks chunks false

/-- Modelled from the spec: the endpoint attempt loop shared by both
entry points — try the current endpoint, and on a capacity-exhaustion
signal seen before any output advance to the next endpoint of the
fallback list (no wrapping) while the retry budget lasts.  Returns the
ordered upstream calls made, the events forwarded to the caller, and
the outcome. -/
def dispatchStream (transport : String → UpstreamReply) :
    List String → Nat → List String × List StreamEvent × Outcome
  | [], _ => ([], [], .capacityExhausted)
  | e :: rest, retries =>
      match transport e with
      | .ok chunks =>
          match runStream chunks with
          | (evs, .completed) => ([e], evs, .success)
          | (evs, .terminalError) => ([e], evs, .streamError)
          | (_, .failoverBeforeOutput) =>
              if retries = 0 then ([e], [], .capacityExhausted)
              else
                let (cs, evs', o) := dispatchStream transport rest (retries - 1)
                (e :: cs, evs', o)
      | .capacity =>
          if retries = 0 then ([e], [], .capacityExhausted)
          else
            let (cs, evs', o) := dispatchStream transport rest (retries - 1)
            (e :: cs, evs', o)
      | .rateLimited => ([e], [], .errored 429)
      | .otherError s => ([e], [], .errored s)

/-- Modelled from the spec: the aggregated entry point accumulates the
same events instead of forwarding them live. -/
def concatText : List StreamEvent → String
  | [] => ""
  | .textDelta t :: rest => t ++ concatText rest
  | _ :: rest => concatText rest

/-- Modelled from the spec: `sendMessage`-style aggregated dispatch —
same attempt loop, events folded into one response text. -/
def dispatchAggregate (transport : String → UpstreamReply)
    (fallbacks : List String) (retries : Nat) : List String × String × Outcome :=
  let (calls, evs, o) := dispatchStream transport fallbacks retries
  (calls, concatText evs, o)

theorem consumeChunks_cons_data (t : String) (rest : List Chunk) (d : Bool) :
    consumeChunks (Chunk.data t :: rest) d =
      (.textDelta t :: (consumeChunks rest true).1, (consumeChunks rest true).2) := by
  cases hr : consumeChunks rest true with
  | mk evs o => simp [consumeChunks, hr]

theorem consumeChunks_allData (chunks : List Chunk) :
    ∀ d : Bool, (∀ c ∈ chunks, ∃ t, c = Chunk.data t) →
      (consumeChunks chunks d).2 = .completed := by
  induction chunks with
  | nil => intro d _; rfl
  | cons c rest ih =>
      intro d hdata
      obtain ⟨t, ht⟩ := hdata c (List.mem_cons_self _ _)
      subst ht
      have hrest := ih true (fun c hc => hdata c (List.mem_cons_of_mem _ hc))
      cases hr : consumeChunks rest true with
      | mk evs o =>
          rw [hr] at hrest
          simp only [consumeChunks, hr]
          exact hrest

theorem consumeChunks_committed (ds : List Chunk) :
    ∀ (tail : List Chunk) (d : Bool),
      (∀ c ∈ ds, ∃ t, c = Chunk.data t) → (ds = [] → d = true) →
      ∃ pre, consumeChunks (ds ++ Chunk.capacitySignal :: tail) d =
        (pre ++ [.errorEvent], .terminalError) := by
  induction ds with
  | nil =>
      intro tail d _ hd
      rw [hd rfl]
      exact ⟨[], rfl⟩
  | cons c ds' ih =>
      intro tail d hdata _
      obtain ⟨t, ht⟩ := hdata c (List.mem_cons_self _ _)
      subst ht
      obtain ⟨pre', hpre'⟩ := ih tail true
        (fun c hc => hdata c (List.mem_cons_of_mem _ hc)) (fun _ => rfl)
      refine ⟨.textDelta t :: pre', ?_⟩
      rw [List.cons_append, consumeChunks_cons_data, hpre']
      simp

theorem consumeChunks_failover_empty (chunks : List Chunk) :
    ∀ (d : Bool) (evs : List StreamEvent),
      consumeChunks chunks d = (evs, .failoverBeforeOutput) →
      evs = [] ∧ d = false := by
  induction chunks with
  | nil =>
      intro d evs h
      cases h
  | cons c rest ih =>
      intro d evs h
      cases c with
      | data t =>
          rw [consumeChunks_cons_data] at h
          cases hr : consumeChunks rest true with
          | mk evs' o =>
              rw [hr] at h
              injection h with h1 h2
              subst h2
              exact absurd (ih true evs' hr).2 (by simp)
      | capacitySignal =>
          cases d with
          | false =>
              simp [consumeChunks] at h
              exact ⟨h, rfl⟩
          | true => simp [consumeChunks] at h

theorem dispatchStream_success_step (tr : String → UpstreamReply) (e : String)
    (rest : List String) (retries : Nat) (chunks : List Chunk) (evs : List StreamEvent)
    (hok : tr e = .ok chunks) (hrs : runStream chunks = (evs, .completed)) :
    dispatchStream tr (e :: rest) retries = ([e], evs, .success) := by
  simp [dispatchStream, hok, hrs]

theorem dispatchStream_terminal_step (tr : String → UpstreamReply) (e : String)
    (rest : List String) (retries : Nat) (chunks : List Chunk) (evs : List StreamEvent)
    (hok : tr e = .ok chunks) (hrs : runStream chunks = (evs, .terminalError)) :
    dispatchStream tr (e :: rest) retries = ([e], evs, .streamError) := by
  simp [dispatchStream, hok, hrs]

theorem dispatchStream_capacity_step (tr : String → UpstreamReply) (e : String)
    (rest : List String) (retries : Nat)
    (hcap : tr e = .capacity) (hnz : retries ≠ 0) :
    dispatchStream tr (e :: rest) retries =
      (e :: (dispatchStream tr rest (retries - 1)).1,
       (dispatchStream tr rest (retries - 1)).2.1,
       (dispatchStream tr rest (retries - 1)).2.2) := by
  cases hd : dispatchStream tr rest (retries - 1) with
  | mk cs p =>
      cases p with
      | mk evs o => simp [dispatchStream, hcap, hnz, hd]

theorem dispatchStream_failover_step (tr : String → UpstreamReply) (e : String)
    (rest : List String) (retries : Nat) (chunks : List Chunk) (evs0 : List StreamEvent)
    (hok : tr e = .ok chunks) (hrs : runStream chunks = (evs0, .failoverBeforeOutput))
    (hnz : retries ≠ 0) :
    dispatchStream tr (e :: rest) retries =
      (e :: (dispatchStream tr rest (retries - 1)).1,
       (dispatchStream tr rest (retries - 1)).2.1,
       (dispatchStream tr rest (retries - 1)).2.2) := by
  cases hd : dispatchStream tr rest (retries - 1) with
  | mk cs p =>
      cases p with
      | mk evs o => simp [dispatchStream, hok, hrs, hnz, hd]

/-- C1: with fallback list `[E0, E1]`, a transport answering `E0` with a
capacity-exhausted 503 and `E1` with a clean 2xx body, both the
streaming and the aggregated entry point make exactly two upstream
calls, `E0` then `E1`, and the caller observes only the events decoded
from the body returned by `E1`. -/
theorem dispatch_failover_exactly_two_calls
    (E0 E1 : String) (transport : String → UpstreamReply) (chunks : List Chunk)
    (retries : Nat)
    (h0 : transport E0 = .capacity)
    (h1 : transport E1 = .ok chunks)
    (hdata : ∀ c ∈ chunks, ∃ t, c = Chunk.data t)
    (hr : 1 ≤ retries) :
    dispatchStream transport [E0, E1] retries =
      ([E0, E1], (runStream chunks).1, .success) ∧
    dispatchAggregate transport [E0, E1] retries =
      ([E0, E1], concatText (runStream chunks).1, .success) := by
  have hzero : retries ≠ 0 := by omega
  obtain ⟨evs, hrs⟩ : ∃ evs, runStream chunks = (evs, .completed) := by
    cases hq : runStream chunks with
    | mk evs o =>
        have hcomp : (runStream chunks).2 = .completed :=
          consumeChunks_allData chunks false hdata
        rw [hq] at hcomp
        have ho : o = .completed := hcomp
        rw [ho]
        exact ⟨evs, rfl⟩
  have hmain : dispatchStream transport [E0, E1] retries =
      ([E0, E1], (runStream chunks).1, .success) := by
    rw [dispatchStream_capacity_step transport E0 [E1] retries h0 hzero,
      dispatchStream_success_step transport E1 [] (retries - 1) chunks evs h1 hrs]
    simp [hrs]
  exact ⟨hmain, by simp [dispatchAggregate, hmain]⟩

/-- C1 witness at the concrete daily/prod endpoints of the failover
test. -/
theorem dispatch_failover_exactly_two_calls_witness :
    dispatchStream
        (fun e => if e = "daily" then .capacity else .ok [Chunk.data "Stream success"])
        ["daily", "prod"] 3 =
      (["daily", "prod"], (runStream [Chunk.data "Stream success"]).1, .success) ∧
    dispatchAggregate
        (fun e => if e = "daily" then .capacity else .ok [Chunk.data "Stream success"])
        ["daily", "prod"] 3 =
      (["daily", "prod"], concatText (runStream [Chunk.data "Stream success"]).1,
        .success) :=
  dispatch_failover_exactly_two_calls "daily" "prod" _ [Chunk.data "Stream success"] 3
    (by decide) (by decide)
    (fun c hc => ⟨"Stream success", List.mem_singleton.mp hc⟩) (by omega)

/-- C2: a capacity-exhaustion signal arriving after at least one
forwarded event commits the attempt — the dispatcher makes no further
upstream call and the stream ends with a terminal error event; and
whenever the dispatcher does fail over past an endpoint, that attempt
forwarded no events. -/
theorem stream_commit_no_failover
    (transport : String → UpstreamReply) (e : String) (rest : List String)
    (retries : Nat) (chunks ds tail : List Chunk)
    (hok : transport e = .ok chunks)
    (hsplit : chunks = ds ++ Chunk.capacitySignal :: tail)
    (hne : ds ≠ [])
    (hdata : ∀ c ∈ ds, ∃ t, c = Chunk.data t) :
    (∃ pre, dispatchStream transport (e :: rest) retries =
        ([e], pre ++ [.errorEvent], .streamError)) ∧
    (∀ (tr : String → UpstreamReply) (fs : List String) (n : Nat)
        (e' : String) (cs : List String) (evs : List StreamEvent) (o : Outcome),
      dispatchStream tr fs n = (e' :: cs, evs, o) → cs ≠ [] →
      tr e' = .capacity ∨
        ∃ chunks', tr e' = .ok chunks' ∧
          runStream chunks' = ([], .failoverBeforeOutput)) := by
  constructor
  · obtain ⟨pre, hpre⟩ :=
      consumeChunks_committed ds tail false hdata (fun h => absurd h hne)
    have hrs : runStream chunks = (pre ++ [.errorEvent], .terminalError) := by
      rw [hsplit]
      exact hpre
    exact ⟨pre, dispatchStream_terminal_step transport e rest retries chunks _ hok hrs⟩
  · intro tr fs n e' cs evs o hdisp hcs
    cases fs with
    | nil => simp [dispatchStream] at hdisp
    | cons f fs' =>
        cases hrep : tr f with
        | ok chunks' =>
            cases hq : runStream chunks' with
            | mk evs0 o0 =>
                cases o0 with
                | completed =>
                    rw [dispatchStream_success_step tr f fs' n chunks' evs0 hrep hq]
                      at hdisp
                    have hcalls := congrArg Prod.fst hdisp
                    injection hcalls with hf hrest
                    exact absurd hrest.symm hcs
                | terminalError =>
                    rw [dispatchStream_terminal_step tr f fs' n chunks' evs0 hrep hq]
                      at hdisp
                    have hcalls := congrArg Prod.fst hdisp
                    injection hcalls with hf hrest
                    exact absurd hrest.symm hcs
                | failoverBeforeOutput =>
                    by_cases hn : n = 0
                    · have hstep : dispatchStream tr (f :: fs') n =
                          ([f], [], .capacityExhausted) := by
                        simp [dispatchStream, hrep, hq, hn]
                      rw [hstep] at hdisp
                      have hcalls := congrArg Prod.fst hdisp
                      injection hcalls with hf hrest
                      exact absurd hrest.symm hcs
                    · rw [dispatchStream_failover_step tr f fs' n chunks' evs0 hrep hq hn]
                        at hdisp
                      have hcalls := congrArg Prod.fst hdisp
                      injection hcalls with hf hrest
                      have hempty := (consumeChunks_failover_empty chunks' false evs0 hq).1
                      subst hf
                      exact Or.inr ⟨chunks', hrep, by rw [hq, hempty]⟩
        | capacity =>
            by_cases hn : n = 0
            · have hstep : dispatchStream tr (f :: fs') n =
                  ([f], [], .capacityExhausted) := by
                simp [dispatchStream, hrep, hn]
              rw [hstep] at hdisp
              have hcalls := congrArg Prod.fst hdisp
              injection hcalls with hf hrest
              exact absurd hrest.symm hcs
            · rw [dispatchStream_capacity_step tr f fs' n hrep hn] at hdisp
              have hcalls := congrArg Prod.fst hdisp
              injection hcalls with hf hrest
              subst hf
              exact Or.inl hrep
        | rateLimited =>
            have hstep : dispatchStream tr (f :: fs') n = ([f], [], .errored 429) := by
              simp [dispatchStream, hrep]
            rw [hstep] at hdisp
            have hcalls := congrArg Prod.fst hdisp
            injection hcalls with hf hrest
            exact absurd hrest.symm hcs
        | otherError s =>
            have hstep : dispatchStream tr (f :: fs') n = ([f], [], .errored s) := by
              simp [dispatchStream, hrep]
            rw [hstep] at hdisp
            have hcalls := congrArg Prod.fst hdisp
            injection hcalls with hf hrest
            exact absurd hrest.symm hcs

/-- C2 witness: one forwarded delta followed by a capacity signal ends
the stream with a terminal error after a single call, fallback endpoints
untouched. -/
theorem stream_commit_no_failover_witness :
    ∃ pre, dispatchStream
        (fun _ => UpstreamReply.ok [Chunk.data "a", Chunk.capacitySignal])
        ["E0", "E1"] 3 =
      (["E0"], pre ++ [.errorEvent], .streamError) :=
  (stream_commit_no_failover
      (fun _ => UpstreamReply.ok [Chunk.data "a", Chunk.capacitySignal])
      "E0" ["E1"] 3 [Chunk.data "a", Chunk.capacitySignal] [Chunk.data "a"] []
      rfl rfl (by decide)
      (fun c hc => ⟨"a", List.mem_singleton.mp hc⟩)).1

end Proxy
